import Mathlib

/-!
Verification of the cryptocurrency-kit core against its specification.

Bytes are modelled as `Nat` (values below 256 where it matters), byte
arrays and slices as `List Nat`.  Fallible Rust code returns `Option`
(`none` models a panic or an `Err`, as documented at each definition).
The external secp256k1 and keccak/sha3 primitives are not part of this
repository; where a claim depends on them they are abstracted as
function parameters or as a structure whose fields state the library
contract the source relies on.
-/

namespace CCKit

/-- Big-endian numeric value of a byte string, as `H256` comparisons
(byte-lexicographic on 32 bytes) coincide with numeric comparison. -/
def beNat (l : List Nat) : Nat := l.foldl (fun a b => a * 256 + b) 0

/-- The secp256k1 group order, the constant
`fffffffffffffffffffffffffffffffebaaedce6af48a03bbfd25e8cd0364141`
compared against in `Signature::is_valid`. -/
def secpOrder : Nat :=
  0xfffffffffffffffffffffffffffffffebaaedce6af48a03bbfd25e8cd0364141

/-- Rust slice indexing `&l[a..b]`: panics (`none`) when the range is
out of bounds, otherwise yields the sub-slice. -/
def sliceRange (l : List Nat) (a b : Nat) : Option (List Nat) :=
  if a ≤ b ∧ b ≤ l.length then some ((l.drop a).take (b - a)) else none

/-- `H256::from_slice`: panics (`none`) unless the slice is exactly 32
bytes; the resulting value compares numerically big-endian. -/
def h256_from_slice (l : List Nat) : Option Nat :=
  if l.length = 32 then some (beNat l) else none

/-- `Signature::r`: `&self.0[0..SIGNATURE_R_SIZE]`, i.e. bytes 0..32. -/
def sig_r (sig : List Nat) : Option (List Nat) := sliceRange sig 0 32

/-- `Signature::s`: the source slices
`&self.0[SIGNATURE_R_SIZE..(SIGNATURE_SIZE + SIGNATURE_S_SIZE)]`,
i.e. bytes 32..97 of the 65-byte array. -/
def sig_s (sig : List Nat) : Option (List Nat) := sliceRange sig 32 (65 + 32)

/-- `Signature::v`: byte 64 of the 65-byte array (`getD` is total; on
the 65-byte signatures of the claims it is exact indexing). -/
def sig_v (sig : List Nat) : Nat := sig.getD 64 0

/-- `Signature::is_valid`, with Rust `&&` short-circuit evaluation:
`v ≤ 1`, then `1 ≤ r < order` via `H256::from_slice(self.r())`, then
the same for `s` via `self.s()`.  `none` models a panic raised while
evaluating a conjunct. -/
def is_valid (sig : List Nat) : Option Bool :=
  if sig_v sig ≤ 1 then
    match sig_r sig with
    | none => none
    | some rb =>
      match h256_from_slice rb with
      | none => none
      | some r =>
        if r < secpOrder then
          if 1 ≤ r then
            match sig_s sig with
            | none => none
            | some sb =>
              match h256_from_slice sb with
              | none => none
              | some s =>
                if s < secpOrder then some (decide (1 ≤ s)) else some false
          else some false
        else some false
  else some false

/-- `Default for Signature`: the all-zero 65-byte signature. -/
def signature_default : List Nat := List.replicate 65 0

/-- `Signature::into_electrum`: `self.0[64] += 27` on the 65-byte array
(u8 addition wraps modulo 256 in release builds; debug builds would
panic on overflow, which the overflow counterexample also covers). -/
def into_electrum (sig : List Nat) : List Nat :=
  sig.take 64 ++ [(sig_v sig + 27) % 256]

/-- `Signature::from_electrum`: falls back to the default signature when
the length is not 65 or the last byte is below 27, otherwise copies the
bytes and subtracts 27 from the last one. -/
def from_electrum (data : List Nat) : List Nat :=
  if data.length ≠ 65 ∨ data.getD 64 0 < 27 then signature_default
  else data.take 64 ++ [data.getD 64 0 - 27]

/-- Failing input for the `is_valid` claim: R = 1, S = 0, V = 0. -/
def sigRS10 : List Nat :=
  List.replicate 31 0 ++ [1] ++ List.replicate 32 0 ++ [0]

/-- A 65-byte signature whose recovery byte is 2. -/
def sigV2 : List Nat := List.replicate 64 0 ++ [2]

/-- A 65-byte signature whose recovery byte is 255: `into_electrum`
wraps it to 26, which `from_electrum` maps to the default signature. -/
def sigV255 : List Nat := List.replicate 64 1 ++ [255]

/-- Rebuilding a list from its first `n` elements and its element at
index `n` when its length is `n + 1`. -/
theorem take_append_getD (l : List Nat) (n : Nat) (h : l.length = n + 1) :
    l.take n ++ [l.getD n 0] = l := by
  induction l generalizing n with
  | nil => simp at h
  | cons a t ih =>
    cases n with
    | zero =>
      have ht : t = [] := by
        cases t with
        | nil => rfl
        | cons b u => simp at h
      simp [ht, List.getD]
    | succ m =>
      have ht : t.length = m + 1 := by simpa using h
      have ihm := ih m ht
      simp only [List.take_succ_cons, List.getD_cons_succ, List.cons_append]
      rw [ihm]

theorem getD_append_length (l : List Nat) (x : Nat) (n : Nat)
    (h : l.length = n) : (l ++ [x]).getD n 0 = x := by
  subst h
  simp [List.getD_eq_getElem?_getD, List.getElem?_append_right]

theorem take_append_length (l : List Nat) (x : Nat) (n : Nat)
    (h : l.length = n) : (l ++ [x]).take n = l := by
  subst h
  exact List.take_left l [x]

/-- C3: the source's `is_valid` panics (out-of-bounds slice `[32..97]`
inside `Signature::s`) on the signature with R = 1, S = 0, V = 0 —
instead of returning `false` for the zero S — while it does return
`false` when the recovery byte is 2 or more. -/
theorem is_valid_panics_on_zero_s :
    is_valid sigRS10 = none ∧ is_valid sigV2 = some false := by
  constructor <;> decide

/-- C5 counterexample: the Electrum round trip fails on the 65-byte
signature whose recovery byte is 255: adding 27 wraps to 26, which
`from_electrum` rejects into the all-zero default signature. -/
theorem electrum_roundtrip_cex :
    from_electrum (into_electrum sigV255) = signature_default ∧
      from_electrum (into_electrum sigV255) ≠ sigV255 := by
  constructor <;> decide

/-- C5 (amended): for every 65-byte signature whose recovery byte is at
most 228 — so that adding 27 does not overflow the byte — the Electrum
conversion round-trips exactly. -/
theorem electrum_roundtrip (sig : List Nat) (hlen : sig.length = 65)
    (hv : sig_v sig ≤ 228) :
    from_electrum (into_electrum sig) = sig := by
  have htk : (sig.take 64).length = 64 := by simp [hlen]
  have hwrap : (sig_v sig + 27) % 256 = sig_v sig + 27 :=
    Nat.mod_eq_of_lt (by omega)
  have hgd : (into_electrum sig).getD 64 0 = sig_v sig + 27 := by
    unfold into_electrum
    rw [hwrap]
    exact getD_append_length _ _ _ htk
  have hlen2 : (into_electrum sig).length = 65 := by
    unfold into_electrum
    rw [List.length_append, htk]
    rfl
  unfold from_electrum
  rw [hgd, hlen2, if_neg (by omega)]
  unfold into_electrum
  rw [hwrap, take_append_length _ _ _ htk]
  have : sig_v sig + 27 - 27 = sig.getD 64 0 := by unfold sig_v; omega
  rw [this]
  exact take_append_getD sig 64 hlen

/-- C5 witness: the round trip evaluated on a concrete signature with
recovery byte 1. -/
theorem electrum_roundtrip_witness :
    (List.replicate 64 9 ++ [1] : List Nat).length = 65 ∧
      from_electrum (into_electrum (List.replicate 64 9 ++ [1])) =
        List.replicate 64 9 ++ [1] :=
  ⟨by decide, electrum_roundtrip _ (by decide) (by decide)⟩

/-- C6: every byte slice of length other than 65, and every 65-byte
slice whose last byte is below 27, decodes to the all-zero default
signature (the function is total: no error, no panic). -/
theorem from_electrum_malformed_default (data : List Nat)
    (h : data.length ≠ 65 ∨ data.getD 64 0 < 27) :
    from_electrum data = signature_default := by
  unfold from_electrum
  rw [if_pos h]

/-- C6 witness: a 3-byte slice and a 65-byte slice ending in 0 both
decode to the default signature. -/
theorem from_electrum_malformed_default_witness :
    (([1, 2, 3] : List Nat).length ≠ 65 ∧
        from_electrum [1, 2, 3] = signature_default) ∧
      ((List.replicate 65 0 : List Nat).getD 64 0 < 27 ∧
        from_electrum (List.replicate 65 0) = signature_default) :=
  ⟨⟨by decide, from_electrum_malformed_default _ (Or.inl (by decide))⟩,
   ⟨by decide, from_electrum_malformed_default _ (Or.inr (by decide))⟩⟩

/-- `Hash::new`: asserts the input is exactly 32 bytes (`none` models
the assertion panic), then copies the bytes. -/
def hash_new (b : List Nat) : Option (List Nat) :=
  if b.length = 32 then some b else none

/-- `Hash::from_slice`: asserts the slice is exactly 32 bytes (`none`
models the assertion panic) and then returns the Rust `None` (modelled
as `some none`): the body is `assert_eq!(...); None`. -/
def hash_from_slice (bs : List Nat) : Option (Option (List Nat)) :=
  if bs.length = 32 then some none else none

/-- C10: `Hash::from_slice` never constructs a digest — on every
32-byte slice it returns `None`, on every other length it panics on the
length assertion — while `Hash::new` succeeds on exactly the 32-byte
inputs. -/
theorem hash_from_slice_never_some (bs : List Nat) :
    (bs.length = 32 →
        hash_from_slice bs = some none ∧ hash_new bs = some bs) ∧
      (bs.length ≠ 32 → hash_from_slice bs = none) := by
  unfold hash_from_slice hash_new
  constructor
  · intro h
    rw [if_pos h, if_pos h]
    exact ⟨rfl, rfl⟩
  · intro h
    rw [if_neg h]

/-- C10 witness: the two branches evaluated on a 32-byte slice and on a
1-byte slice. -/
theorem hash_from_slice_never_some_witness :
    (hash_from_slice (List.replicate 32 0) = some none ∧
        hash_new (List.replicate 32 0) = some (List.replicate 32 0)) ∧
      hash_from_slice [7] = none :=
  ⟨(hash_from_slice_never_some (List.replicate 32 0)).1 (by decide),
   (hash_from_slice_never_some [7]).2 (by decide)⟩

/-- One iteration of the Merkle level loop body: `while i < len / 2`
pairs `nodes[2i]` with `nodes[2i+1]`, hashing the concatenation of the
two child digests; an odd trailing node falls outside the `len / 2`
pairs and is dropped.  Parametric in the digest function `H`
(keccak-256 in `merkle_tree/mod.rs`, SHA3-256 in `common/mod.rs`). -/
def merkle_level (H : List Nat → List Nat) : List (List Nat) → List (List Nat)
  | a :: b :: rest => H (a ++ b) :: merkle_level H rest
  | _ => []

/-- The `loop { ... }` of `new_merkle_tree`: rebuild levels until one
node remains.  Fuel models the unbounded loop; `none` means the fuel
ran out, which on this loop only happens when the level dies out (empty
input), where the source loops forever. -/
def merkle_loop (H : List Nat → List Nat) :
    Nat → List (List Nat) → Option (List Nat)
  | 0, _ => none
  | fuel + 1, nodes =>
    let nl := merkle_level H nodes
    if nl.length = 1 then nl.head? else merkle_loop H fuel nl

/-- `MerkleTree::new_merkle_tree`: when the input count is odd the last
blob is duplicated once, each blob is hashed into a leaf node, and the
level loop folds the leaves to a single root digest. -/
def new_merkle_tree (H : List Nat → List Nat) (data : List (List Nat)) :
    Option (List Nat) :=
  let padded := if data.length % 2 ≠ 0 then data ++ [data.getLastD []] else data
  merkle_loop H (data.length + 2) (padded.map H)

/-- A concrete injective combiner standing in for the digest function,
so that equal roots cannot be blamed on hash collisions. -/
def tagHash (l : List Nat) : List Nat := 9 :: l

/-- C2 counterexample: with an injective combiner, five-leaf inputs that
differ only in the fifth leaf produce the same root — the intermediate
level of three nodes drops its last node instead of duplicating it, so
the root does not commit to the fifth leaf. -/
theorem merkle_root_drops_fifth_leaf :
    new_merkle_tree tagHash [[1], [2], [3], [4], [5]] =
        new_merkle_tree tagHash [[1], [2], [3], [4], [6]] ∧
      ([[1], [2], [3], [4], [5]] : List (List Nat)) ≠
        [[1], [2], [3], [4], [6]] := by
  constructor <;> decide

/-- C2 (amended): duplication of the last element happens only at the
leaf level.  For three leaves (odd, padded to four) the root is
`H(H(H l1 ++ H l2) ++ H(H l3 ++ H l3))`; for five leaves (padded to
six) the intermediate level has three nodes and its last is dropped, so
the root is `H(H(H l1 ++ H l2) ++ H(H l3 ++ H l4))`, independent of the
fifth leaf. -/
theorem merkle_root_three_and_five (H : List Nat → List Nat)
    (l1 l2 l3 l4 l5 : List Nat) :
    new_merkle_tree H [l1, l2, l3] =
        some (H (H (H l1 ++ H l2) ++ H (H l3 ++ H l3))) ∧
      new_merkle_tree H [l1, l2, l3, l4, l5] =
        some (H (H (H l1 ++ H l2) ++ H (H l3 ++ H l4))) := by
  constructor <;> simp [new_merkle_tree, merkle_loop, merkle_level]

/-- C2 witness: the two root formulas evaluated under the injective
tag combiner on concrete leaves. -/
theorem merkle_root_three_and_five_witness :
    new_merkle_tree tagHash [[1], [2], [3]] =
        some (tagHash (tagHash (tagHash [1] ++ tagHash [2]) ++
          tagHash (tagHash [3] ++ tagHash [3]))) ∧
      new_merkle_tree tagHash [[1], [2], [3], [4], [5]] =
        some (tagHash (tagHash (tagHash [1] ++ tagHash [2]) ++
          tagHash (tagHash [3] ++ tagHash [4]))) :=
  merkle_root_three_and_five tagHash [1] [2] [3] [4] [5]

/-- Value of one hex digit, accepting both cases (the behaviour of the
hex crate backing `common::from_hex`). -/
def hexVal (c : Char) : Option Nat :=
  if '0' ≤ c ∧ c ≤ '9' then some (c.toNat - '0'.toNat)
  else if 'a' ≤ c ∧ c ≤ 'f' then some (c.toNat - 'a'.toNat + 10)
  else if 'A' ≤ c ∧ c ≤ 'F' then some (c.toNat - 'A'.toNat + 10)
  else none

/-- Strict pairwise hex decoding: fails on any non-hex character and on
odd length; no prefix of any kind is skipped. -/
def hexPairs : List Char → Option (List Nat)
  | [] => some []
  | [_] => none
  | a :: b :: rest =>
    match hexVal a, hexVal b with
    | some x, some y => (hexPairs rest).map (fun t => (16 * x + y) :: t)
    | _, _ => none

/-- `common::from_hex`, i.e. `hex::decode` of the hex crate. -/
def hexDecode (s : String) : Option (List Nat) := hexPairs s.toList

/-- `FromStr for Signature`: hex-decode via `common::from_hex` and
accept exactly a 65-byte result; everything else is
`Error::InvalidSignature` (`none`). -/
def sig_from_str (s : String) : Option (List Nat) :=
  match hexDecode s with
  | some v => if v.length = 65 then some v else none
  | none => none

/-- Rust `c as u8`: the Unicode scalar value truncated to a byte. -/
def charByte (c : Char) : Nat := c.toNat % 256

/-- `FromStr for Hash`: compares the UTF-8 byte length of the string
with `HASH_SIZE` (32) and `HASH_SIZE + 2` (34), takes the characters
(all of them, resp. all but the first two) truncated to bytes, and
hands them to `Hash::new`, whose 32-length assertion can panic (outer
`none`); any other byte length is `Err(InvalidHexLength)` (`some
none`).  No hex decoding happens. -/
def hash_from_str (s : String) : Option (Option (List Nat)) :=
  if s.utf8ByteSize = 32 then
    (hash_new (s.toList.map charByte)).map some
  else if s.utf8ByteSize = 34 then
    (hash_new ((s.toList.drop 2).map charByte)).map some
  else some none

/-- Sixty-four zero characters: the hex rendering of the zero digest,
exactly what `Hash::to_hex` produces. -/
def zero64 : String := "0000000000000000000000000000000000000000000000000000000000000000"

/-- C8 counterexample: the 64-character hex string of the zero digest
hex-decodes to exactly 32 bytes, so the claim says `Hash::from_str`
accepts it; the source returns `Err(InvalidHexLength)` because it
compares the raw string length with 32/34 and never hex-decodes. -/
theorem hash_from_str_hex64_cex :
    hash_from_str zero64 = some none ∧
      hexDecode zero64 = some (List.replicate 32 0) := by
  constructor
  · rfl
  · rfl

/-- C8 (amended): `Signature::from_str` strictly hex-decodes (so a
`0x` prefix is always rejected) and succeeds exactly on a 65-byte
decode; `Hash::from_str` does no hex decoding — it succeeds exactly
when the UTF-8 byte length is 32 or 34 and every character is one byte
(character count equal to byte length), taking characters as raw
truncated bytes. -/
theorem fixed_len_from_str_amended :
    (∀ s v, sig_from_str s = some v ↔
        hexDecode s = some v ∧ v.length = 65) ∧
      (∀ t : String, sig_from_str ("0x" ++ t) = none) ∧
        (∀ s : String, (∃ h, hash_from_str s = some (some h)) ↔
          (s.utf8ByteSize = 32 ∨ s.utf8ByteSize = 34) ∧
            s.toList.length = s.utf8ByteSize) := by
  refine ⟨?_, ?_, ?_⟩
  · intro s v
    have eb : sig_from_str s =
        (hexDecode s).bind
          (fun w => if w.length = 65 then some w else none) := by
      unfold sig_from_str
      cases hexDecode s <;> rfl
    rw [eb]
    cases e : hexDecode s with
    | none => simp
    | some w =>
      by_cases hl : w.length = 65
      · simp only [Option.some_bind, if_pos hl, Option.some_inj]
        constructor
        · intro h
          exact ⟨h, h ▸ hl⟩
        · intro h
          exact h.1
      · simp only [Option.some_bind, if_neg hl]
        constructor
        · intro h
          simp at h
        · rintro ⟨h1, h2⟩
          injection h1 with h1
          exact absurd (h1 ▸ h2) hl
  · intro t
    have hx : hexDecode ("0x" ++ t) = none := rfl
    unfold sig_from_str
    rw [hx]
  · intro s
    have hLen : s.toList.length = s.length := rfl
    unfold hash_from_str hash_new
    by_cases h32 : s.utf8ByteSize = 32
    · rw [if_pos h32, h32, hLen]
      by_cases hl : s.length = 32
      · simp [hl, hLen]
      · simp [hl, hLen]
    · rw [if_neg h32]
      by_cases h34 : s.utf8ByteSize = 34
      · rw [if_pos h34, h34, hLen]
        by_cases hl : s.length = 34
        · simp [hl, hLen]
        · simp [hl, hLen]
          omega
      · rw [if_neg h34]
        simp [h32, h34]

/-- C8 witness: the `0x`-rejection conjunct evaluated at the empty
remainder. -/
theorem fixed_len_from_str_amended_witness :
    sig_from_str ("0x" ++ "") = none :=
  fixed_len_from_str_amended.2.1 ""

/-- `H256::from_str` of the ethereum-types crate (external to this
repository), modelled from the spec: strict hex decoding of exactly 64
hex characters into 32 bytes, no `0x` prefix. -/
def h256_from_str (s : String) : Option (List Nat) :=
  match hexDecode s with
  | some v => if v.length = 32 then some v else none
  | none => none

/-- `From<H256> for Secret` as written in the source: the body is
`s.into()`, which resolves to this very impl, so every call recurses
unconditionally.  `fuel` bounds the recursion depth; `none` models the
stack overflow: no fuel ever suffices. -/
def secret_from_h256 : Nat → List Nat → Option (List Nat)
  | 0, _ => none
  | fuel + 1, h => secret_from_h256 fuel h

theorem secret_from_h256_none (fuel : Nat) (h : List Nat) :
    secret_from_h256 fuel h = none := by
  induction fuel with
  | zero => rfl
  | succ n ih => exact ih

/-- `FromStr for Secret`: parse the hex via `H256::from_str` (malformed
input is `Err(Custom ...)`, modelled `some none`) and convert the
`H256` with the `From<H256>` impl above (`none` models its stack
overflow; `some (some sk)` would be `Ok`). -/
def secret_from_str (fuel : Nat) (s : String) : Option (Option (List Nat)) :=
  match h256_from_str s with
  | none => some none
  | some h =>
    match secret_from_h256 fuel h with
    | none => none
    | some sk => some (some sk)

/-- The well-formed 32-byte secret hex string used by the repository's
own `from_secret` test, which asserts that parsing it succeeds. -/
def secretHexFixture : String :=
  "a100df7a048e50ed308ea696dc600215098141cb391e9527329df289f9383f65"

/-- C4: `Secret::from_str` on a well-formed 64-hex-character input never
returns: the `From<H256> for Secret` conversion it calls is defined as
`s.into()`, an unconditional self-call, so no recursion depth (fuel)
reaches a result — the parse is not total, contradicting the claim and
the repository's own test. -/
theorem secret_from_str_diverges (fuel : Nat) :
    secret_from_str fuel secretHexFixture = none := by
  have e : secret_from_str fuel secretHexFixture =
      match secret_from_h256 fuel ((hexDecode secretHexFixture).getD []) with
      | none => none
      | some sk => some (some sk) := rfl
  rw [secret_from_h256_none] at e
  exact e

/-- C4 witness: the divergence evaluated at a concrete recursion
depth. -/
theorem secret_from_str_diverges_witness :
    secret_from_str 5 secretHexFixture = none :=
  secret_from_str_diverges 5

/-- One lowercase hex digit. -/
def hexDigitChar (n : Nat) : Char :=
  if n < 10 then Char.ofNat (48 + n) else Char.ofNat (97 + n - 10)

/-- The two lowercase hex characters of one byte. -/
def byteHexChars (b : Nat) : List Char :=
  [hexDigitChar (b / 16 % 16), hexDigitChar (b % 16)]

/-- `common::to_hex` / `hex::encode` and the `{:x}` rendering of an
`H256`: lowercase hex, two characters per byte, no prefix. -/
def to_hex (l : List Nat) : String := ⟨l.flatMap byteHexChars⟩

/-- Modelled from the spec: `common::to_fixed_array_20` is used by the
sources but its definition is not among them; per the spec an `Address`
is exactly 20 bytes, so the conversion is the checked copy of a
20-byte slice (`none` models the failure on any other length). -/
def to_fixed_array_20 (l : List Nat) : Option (List Nat) :=
  if l.length = 20 then some l else none

/-- `public_to_address`: keccak-256 of the 64-byte public key, then
bytes 12..32 of the digest.  Parametric in the digest function `H`. -/
def public_to_address (H : List Nat → List Nat) (pub : List Nat) :
    Option (List Nat) :=
  to_fixed_array_20 ((H pub).drop 12)

/-- `KeyPair`: an owned secret and the derived 64-byte public key. -/
structure KeyPairE where
  secret : List Nat
  public : List Nat

/-- `KeyPair::address`: `public_to_address(self.public())`. -/
def kp_address (H : List Nat → List Nat) (kp : KeyPairE) :
    Option (List Nat) :=
  public_to_address H kp.public

/-- C7: the address of a keypair is exactly the last 20 bytes (indices
12..32) of the 32-byte digest of its 64-byte public key. -/
theorem address_is_last20 (H : List Nat → List Nat) (kp : KeyPairE)
    (h : (H kp.public).length = 32) :
    kp_address H kp = some ((H kp.public).drop 12) ∧
      ((H kp.public).drop 12).length = 20 := by
  have hd : ((H kp.public).drop 12).length = 20 := by simp [h]
  refine ⟨?_, hd⟩
  unfold kp_address public_to_address to_fixed_array_20
  rw [if_pos hd]

/-- A stand-in 32-byte digest function for witnesses. -/
def rangeHash (_x : List Nat) : List Nat := List.range 32

/-- A concrete keypair with a 32-byte secret and 64-byte public key. -/
def kpFixture : KeyPairE := ⟨List.replicate 32 0, List.replicate 64 0⟩

/-- C7 witness: the address derivation evaluated on a concrete keypair
under the stand-in digest. -/
theorem address_is_last20_witness :
    (rangeHash kpFixture.public).length = 32 ∧
      (kp_address rangeHash kpFixture =
          some ((rangeHash kpFixture.public).drop 12) ∧
        ((rangeHash kpFixture.public).drop 12).length = 20) :=
  ⟨by decide, address_is_last20 rangeHash kpFixture (by decide)⟩

/-- `Display for KeyPair`: two `writeln!` lines for the secret and the
public key — each label padded with two spaces — then a final `write!`
for the address with a single space and no trailing newline.  `none`
propagates a panic from the address derivation. -/
def kp_display (H : List Nat → List Nat) (kp : KeyPairE) : Option String :=
  match kp_address H kp with
  | none => none
  | some addr =>
    some ("secret:  " ++ to_hex kp.secret ++ "\n" ++
      ("public:  " ++ to_hex kp.public ++ "\n" ++
        ("address: " ++ to_hex addr)))

/-- The rendering the spec asks for, transcribed from its words: label,
one colon, one space, value, newline-separated. -/
def kp_display_specform (H : List Nat → List Nat) (kp : KeyPairE) :
    Option String :=
  match kp_address H kp with
  | none => none
  | some addr =>
    some ("secret: " ++ to_hex kp.secret ++ "\n" ++
      ("public: " ++ to_hex kp.public ++ "\n" ++
        ("address: " ++ to_hex addr)))

/-- C9 counterexample: on a concrete keypair the source rendering is
not the spec's single-space rendering — the `secret:` and `public:`
labels are padded with two spaces (as the repository's own
`keypair_display` golden test expects). -/
theorem kp_display_not_specform :
    kp_display rangeHash kpFixture ≠ kp_display_specform rangeHash kpFixture := by
  decide

/-- C9 (amended): the rendering is exactly
`secret:  <hex>\npublic:  <hex>\naddress: <hex>` — the secret and
public labels are followed by two spaces, the address label by one,
with the fields separated by newlines and the values in lowercase
hex. -/
theorem kp_display_two_space_labels (H : List Nat → List Nat)
    (kp : KeyPairE) (addr : List Nat) (h : kp_address H kp = some addr) :
    kp_display H kp =
      some ("secret:  " ++ to_hex kp.secret ++ "\npublic:  " ++
        to_hex kp.public ++ "\naddress: " ++ to_hex addr) := by
  unfold kp_display
  rw [h]
  refine congrArg some ?_
  apply String.ext
  simp [String.data_append, List.append_assoc]

/-- C9 witness: the amended rendering evaluated on a concrete keypair
under the stand-in digest. -/
theorem kp_display_two_space_labels_witness :
    kp_address rangeHash kpFixture =
        some ((rangeHash kpFixture.public).drop 12) ∧
      kp_display rangeHash kpFixture =
        some ("secret:  " ++ to_hex kpFixture.secret ++ "\npublic:  " ++
          to_hex kpFixture.public ++ "\naddress: " ++
          to_hex ((rangeHash kpFixture.public).drop 12)) :=
  ⟨by decide,
   kp_display_two_space_labels rangeHash kpFixture _ (by decide)⟩

/-- `SecretKey::from_slice` of the secp256k1 crate: accepts exactly a
32-byte scalar whose big-endian value is strictly between 0 and the
group order. -/
def secpSecretOk (s : List Nat) : Bool :=
  decide (s.length = 32) && decide (0 < beNat s) && decide (beNat s < secpOrder)

theorem secpSecretOk_length {s : List Nat} (h : secpSecretOk s = true) :
    s.length = 32 := by
  unfold secpSecretOk at h
  simp only [Bool.and_eq_true, decide_eq_true_eq] at h
  exact h.1.1

/-- `PublicKey::serialize_vec(context, false)`: the uncompressed SEC1
encoding, a `0x04` prefix byte followed by the 64 coordinate bytes. -/
def serialize_vec (pk : List Nat) : List Nat := 4 :: pk

/-- Modelled from the spec: `common::to_fixed_array_64` is used by the
sources but its definition is not among them; a `Public` is exactly 64
bytes, so the conversion is the checked copy of a 64-byte slice. -/
def to_fixed_array_64 (l : List Nat) : Option (List Nat) :=
  if l.length = 64 then some l else none

/-- Modelled from the spec: the operations of the external secp256k1
library that `sign`, `recover` and `verify_public` call, together with
the contract the spec and the library documentation give them — a
recoverable signature `serialize_compact`s to a 64-byte body and a
recovery id in `{0,1,2,3}`, `from_compact` inverts that encoding,
recovery of a signature just produced returns the signer's public
point, parsing the uncompressed serialization returns the same point,
and standard verification accepts a signature just produced. -/
structure SecpOps where
  pubOf : List Nat → List Nat
  signRec : List Nat → List Nat → List Nat × Nat
  fromCompact : List Nat → Nat → Option (List Nat × Nat)
  recoverPt : List Nat → List Nat × Nat → Option (List Nat)
  verifyStd : List Nat → List Nat → List Nat → Option Bool
  pubParse : List Nat → Option (List Nat)
  pub_len : ∀ s, secpSecretOk s = true → (pubOf s).length = 64
  sign_len : ∀ s m, secpSecretOk s = true → m.length = 32 →
    ((signRec s m).1).length = 64
  sign_recid : ∀ s m, secpSecretOk s = true → m.length = 32 →
    (signRec s m).2 ≤ 3
  from_compact_sign : ∀ s m, secpSecretOk s = true → m.length = 32 →
    fromCompact (signRec s m).1 (signRec s m).2 = some (signRec s m)
  recover_sign : ∀ s m, secpSecretOk s = true → m.length = 32 →
    recoverPt m (signRec s m) = some (pubOf s)
  pub_parse_ser : ∀ s, secpSecretOk s = true →
    pubParse (serialize_vec (pubOf s)) = some (pubOf s)
  verify_sign : ∀ s m, secpSecretOk s = true → m.length = 32 →
    verifyStd m (signRec s m).1 (pubOf s) = some true

/-- `ethkey::signature::sign`: validate the secret and the 32-byte
message, sign recoverably, copy the 64-byte compact body into bytes
0..64 and store the recovery id (`to_i32() as u8`) in byte 64. -/
def sign (C : SecpOps) (secret msg : List Nat) : Option (List Nat) :=
  if secpSecretOk secret then
    if msg.length = 32 then
      some ((C.signRec secret msg).1.take 64 ++
        [(C.signRec secret msg).2 % 256])
    else none
  else none

/-- `ethkey::signature::recover`: rebuild the recoverable signature
from bytes 0..64 and the recovery id in byte 64 (valid ids are 0..3),
recover the public point, serialize it uncompressed and copy bytes
1..65 into the 64-byte `Public`. -/
def recover (C : SecpOps) (sig msg : List Nat) : Option (List Nat) :=
  if sig.getD 64 0 ≤ 3 then
    match C.fromCompact (sig.take 64) (sig.getD 64 0) with
    | none => none
    | some rsig =>
      if msg.length = 32 then
        match C.recoverPt msg rsig with
        | none => none
        | some pk => to_fixed_array_64 ((serialize_vec pk).drop 1)
      else none
  else none

/-- `ethkey::signature::verify_public`: rebuild the recoverable
signature as in `recover`, convert it to a standard signature (its
64-byte body), prefix the 64-byte public key with `0x04`, parse it and
verify.  `some false` is the `IncorrectSignature` case, `none` any
other error. -/
def verify_public (C : SecpOps) (pub sig msg : List Nat) : Option Bool :=
  if sig.getD 64 0 ≤ 3 then
    match C.fromCompact (sig.take 64) (sig.getD 64 0) with
    | none => none
    | some rsig =>
      match C.pubParse (4 :: pub) with
      | none => none
      | some pk =>
        if msg.length = 32 then C.verifyStd msg rsig.1 pk else none
  else none

/-- `KeyPair::from_secret(...).public()`: derive the public point from
the validated secret and keep bytes 1..65 of its uncompressed
serialization. -/
def public_of (C : SecpOps) (secret : List Nat) : Option (List Nat) :=
  if secpSecretOk secret then
    to_fixed_array_64 ((serialize_vec (C.pubOf secret)).drop 1)
  else none

/-- C1: for every valid secret scalar and 32-byte message digest,
signing succeeds, recovering from the produced signature returns
exactly the keypair's public key, and verifying the signature against
that public key returns `Ok(true)`. -/
theorem sign_recover_verify (C : SecpOps) (s m : List Nat)
    (hs : secpSecretOk s = true) (hm : m.length = 32) :
    ∃ sig pb,
      sign C s m = some sig ∧
        public_of C s = some pb ∧
          recover C sig m = some pb ∧
            verify_public C pb sig m = some true := by
  rcases h : C.signRec s m with ⟨d, r⟩
  have hd : d.length = 64 := by
    have := C.sign_len s m hs hm
    rw [h] at this
    exact this
  have hr : r ≤ 3 := by
    have := C.sign_recid s m hs hm
    rw [h] at this
    exact this
  have hfc : C.fromCompact d r = some (d, r) := by
    have := C.from_compact_sign s m hs hm
    rw [h] at this
    exact this
  have hrc : C.recoverPt m (d, r) = some (C.pubOf s) := by
    have := C.recover_sign s m hs hm
    rw [h] at this
    exact this
  have hv : C.verifyStd m d (C.pubOf s) = some true := by
    have := C.verify_sign s m hs hm
    rw [h] at this
    exact this
  have hpl : (C.pubOf s).length = 64 := C.pub_len s hs
  have htk64 : d.take 64 = d := by rw [← hd, List.take_length]
  have hmod : r % 256 = r := Nat.mod_eq_of_lt (by omega)
  have hsig : sign C s m = some (d ++ [r]) := by
    unfold sign
    rw [if_pos hs, if_pos hm, h]
    simp only [htk64, hmod]
  have hgd : (d ++ [r]).getD 64 0 = r := getD_append_length d r 64 hd
  have htk : (d ++ [r]).take 64 = d := take_append_length d r 64 hd
  have hpb : public_of C s = some (C.pubOf s) := by
    unfold public_of to_fixed_array_64 serialize_vec
    rw [if_pos hs]
    simp [hpl]
  refine ⟨d ++ [r], C.pubOf s, hsig, hpb, ?_, ?_⟩
  · unfold recover
    simp only [hgd, htk, if_pos hr, hfc, if_pos hm, hrc]
    unfold to_fixed_array_64 serialize_vec
    simp [hpl]
  · unfold verify_public
    have hpp : C.pubParse (4 :: C.pubOf s) = some (C.pubOf s) :=
      C.pub_parse_ser s hs
    simp only [hgd, htk, if_pos hr, hfc, hpp, if_pos hm]
    exact hv

/-- A toy instance of the library contract, showing the hypotheses of
the round-trip theorem are satisfiable: the "public point" of a secret
is the secret repeated, signatures carry that point as their compact
body, and recovery reads it back. -/
def secpToy : SecpOps where
  pubOf := fun s => s ++ s
  signRec := fun s _ => (s ++ s, 0)
  fromCompact := fun c r => some (c, r)
  recoverPt := fun _ p => some (p.1.take 32 ++ p.1.take 32)
  verifyStd := fun _ _ _ => some true
  pubParse := fun l => some (l.drop 1)
  pub_len := by
    intro s hs
    simp [secpSecretOk_length hs]
  sign_len := by
    intro s m hs _
    simp [secpSecretOk_length hs]
  sign_recid := by
    intro s m _ _
    exact Nat.zero_le 3
  from_compact_sign := by
    intro s m _ _
    rfl
  recover_sign := by
    intro s m hs _
    have h32 : s.length = 32 := secpSecretOk_length hs
    have ht : (s ++ s).take 32 = s := by
      have := List.take_left s s
      rw [h32] at this
      exact this
    simp [ht]
  pub_parse_ser := by
    intro s _
    rfl
  verify_sign := by
    intro s m _ _
    rfl

/-- The scalar 1 as a 32-byte secret: a valid secp256k1 secret key. -/
def secretFixture : List Nat := List.replicate 31 0 ++ [1]

/-- A 32-byte all-zero message digest. -/
def msgFixture : List Nat := List.replicate 32 0

/-- C1 witness: the round trip evaluated on the toy library instance
with the scalar-1 secret and the zero digest. -/
theorem sign_recover_verify_witness :
    (secpSecretOk secretFixture = true ∧ msgFixture.length = 32) ∧
      (∃ sig pb,
        sign secpToy secretFixture msgFixture = some sig ∧
          public_of secpToy secretFixture = some pb ∧
            recover secpToy sig msgFixture = some pb ∧
              verify_public secpToy pb sig msgFixture = some true) :=
  ⟨⟨by decide, by decide⟩,
   sign_recover_verify secpToy secretFixture msgFixture
     (by decide) (by decide)⟩

end CCKit
